import Mathlib

set_option linter.unusedVariables false
set_option linter.unreachableTactic false
set_option linter.unnecessarySeqFocus false
set_option linter.unusedTactic false

/-!
Verification development for the sales-forecasting ml-service.

Shallow embedding conventions:
* numpy/pandas floating-point values are modelled as rationals `ℚ` (square
  roots, which are genuinely irrational, are modelled in `ℝ` via `Real.sqrt`);
* a `pd.Series` of values is a `List ℚ` in chronological order;
* timestamps are integers counting days since 1970-01-01 (pandas timestamps
  at day resolution);
* external numerical routines (statsmodels SARIMAX fitting, the trained
  XGBoost regressor) are oracle parameters: the fitting outcome is an
  `Option (List ℚ)` (`none` = the routine raised), the regressor is a
  function from the series-so-far to the predicted value.  Every property
  proved below holds for all oracle behaviours.
-/

namespace SalesForecast

/-- Executable maximum on `ℚ` (the lattice `max` does not reduce in the
kernel; this one does, and is proved equal to it below). -/
def qmax (a b : ℚ) : ℚ := if a ≤ b then b else a

/-- Executable minimum on `ℚ`. -/
def qmin (a b : ℚ) : ℚ := if a ≤ b then a else b

/-- Executable absolute value on `ℚ`. -/
def qabs (a : ℚ) : ℚ := if a ≤ 0 then -a else a

theorem qmax_eq_max (a b : ℚ) : qmax a b = max a b := by
  unfold qmax
  split
  · exact (max_eq_right (by assumption)).symm
  · exact (max_eq_left (le_of_not_le (by assumption))).symm

theorem qmin_eq_min (a b : ℚ) : qmin a b = min a b := by
  unfold qmin
  split
  · exact (min_eq_left (by assumption)).symm
  · exact (min_eq_right (le_of_not_le (by assumption))).symm

theorem qabs_eq_abs (a : ℚ) : qabs a = |a| := by
  unfold qabs
  split
  · exact (abs_of_nonpos (by assumption)).symm
  · exact (abs_of_pos (lt_of_not_le (by assumption))).symm

/-- Maximum of a rational list, seeded with the head (pandas `Series.max()`
on a non-empty series). -/
def listMax (l : List ℚ) : ℚ := l.foldl qmax (l.headD 0)

theorem foldl_qmax_eq_foldl_max (t : List ℚ) (s : ℚ) :
    t.foldl qmax s = t.foldl max s := by
  induction t generalizing s with
  | nil => rfl
  | cons b t ih => simp [List.foldl, qmax_eq_max, ih]

theorem le_foldl_max (t : List ℚ) (s : ℚ) :
    s ≤ t.foldl max s ∧ ∀ x ∈ t, x ≤ t.foldl max s := by
  induction t generalizing s with
  | nil => simp
  | cons b t ih =>
    constructor
    · show s ≤ t.foldl max (max s b)
      exact le_trans (le_max_left s b) (ih (max s b)).1
    · intro x hx
      show x ≤ t.foldl max (max s b)
      rcases List.mem_cons.mp hx with h | h
      · rw [h]
        exact le_trans (le_max_right s b) (ih (max s b)).1
      · exact (ih (max s b)).2 x h

theorem le_listMax (l : List ℚ) (x : ℚ) (hx : x ∈ l) : x ≤ listMax l := by
  rcases l with _ | ⟨a, t⟩
  · cases hx
  · have hfold : listMax (a :: t) = t.foldl max a := by
      show (a :: t).foldl qmax a = t.foldl max a
      rw [foldl_qmax_eq_foldl_max]
      simp [List.foldl, max_self]
    rw [hfold]
    rcases List.mem_cons.mp hx with h | h
    · subst h
      exact (le_foldl_max t x).1
    · exact (le_foldl_max t a).2 x h

theorem getLast_mem_of_ne_nil (l : List ℚ) (h : l ≠ []) : l.getLastD 0 ∈ l := by
  rcases l with _ | ⟨a, t⟩
  · exact absurd rfl h
  · rw [List.getLastD_eq_getLast?, List.getLast?_eq_getLast (a :: t) (by simp)]
    simp [List.getLast_mem]

/-! ## Statistical forecaster (models/arima.py) -/

namespace ARIMA

/-- models/arima.py lines 196-197 and 209-210: the naive fallback forecast,
`np.full(horizon, data.iloc[-1] if not data.empty else 0)`. -/
def naiveForecast (data : List ℚ) (horizon : ℕ) : List ℚ :=
  List.replicate horizon (data.getLastD 0)

/-- models/arima.py lines 183-203, the safety rails applied to the raw
SARIMAX forecast `raw`:
1. `predictions = np.maximum(predictions, 0)` (line 185);
2. if the data is non-empty, `threshold = max(historical_max * 100, 1e9)`
   and any prediction above it triggers the naive fallback (lines 189-197);
3. otherwise `predictions = np.minimum(predictions, historical_max * 10)`
   (line 200). -/
def safetyRails (data : List ℚ) (horizon : ℕ) (raw : List ℚ) : List ℚ :=
  if data.isEmpty then raw.map (fun x => qmax x 0)
  else if (raw.map (fun x => qmax x 0)).any
      (fun x => decide (qmax (listMax data * 100) ((10 : ℚ) ^ 9) < x)) then
    naiveForecast data horizon
  else (raw.map (fun x => qmax x 0)).map (fun x => qmin x (listMax data * 10))

/-- models/arima.py lines 134-210, `ARIMAForecaster.fit_predict`.
`fitOutcome` is the oracle outcome of the try-block lines 144-181
(order auto-selection, SARIMAX fit with its internal non-seasonal retry,
and `forecast(steps=horizon)`): `some raw` if a forecast of raw values was
produced, `none` if the block raised.  On an empty series the block always
raises, because `adfuller(data.dropna())` (line 109) and the SARIMAX
constructor both reject empty input; the branch on `data.isEmpty` encodes
that fact, after which the except-block lines 205-210 returns the naive
forecast with `last_value = 0`. -/
def fit_predict (data : List ℚ) (horizon : ℕ) (fitOutcome : Option (List ℚ)) :
    List ℚ :=
  match (if data.isEmpty then none else fitOutcome) with
  | some raw => safetyRails data horizon raw
  | none => naiveForecast data horizon

end ARIMA

/-- C1, theorem (amended): for a non-empty series whose values are all
non-negative, every prediction returned by the statistical forecaster is
non-negative and at most `historical_max * 10`, for every horizon and every
fitting-oracle outcome; and whenever the fit produced a raw forecast with
some value above `max(historical_max * 100, 1e9)`, the returned forecast is
the naive one (last observed value repeated). -/
theorem arima_output_bounded (data : List ℚ) (horizon : ℕ)
    (fitOutcome : Option (List ℚ)) (hh : 1 ≤ horizon) (hne : data ≠ [])
    (hnn : ∀ v ∈ data, 0 ≤ v) :
    (∀ y ∈ ARIMA.fit_predict data horizon fitOutcome,
        0 ≤ y ∧ y ≤ listMax data * 10) ∧
    (∀ raw, fitOutcome = some raw →
      (∃ x ∈ raw, max (listMax data * 100) ((10 : ℚ) ^ 9) < x) →
      ARIMA.fit_predict data horizon fitOutcome =
        ARIMA.naiveForecast data horizon) := by
  have hempty : data.isEmpty = false := by
    simp [List.isEmpty_iff]; exact hne
  have hlast : data.getLastD 0 ∈ data := getLast_mem_of_ne_nil data hne
  have hmax0 : 0 ≤ listMax data := le_trans (hnn _ hlast) (le_listMax _ _ hlast)
  have hnaive : ∀ y ∈ ARIMA.naiveForecast data horizon,
      0 ≤ y ∧ y ≤ listMax data * 10 := by
    intro y hy
    have : y = data.getLastD 0 := List.eq_of_mem_replicate hy
    subst this
    refine ⟨hnn _ hlast, le_trans (le_listMax _ _ hlast) ?_⟩
    nlinarith [hmax0]
  constructor
  · intro y hy
    simp only [ARIMA.fit_predict, hempty, Bool.false_eq_true, if_false] at hy
    cases fitOutcome with
    | none => exact hnaive y hy
    | some raw =>
      simp only [ARIMA.safetyRails, hempty, Bool.false_eq_true, if_false,
        qmax_eq_max, qmin_eq_min] at hy
      split at hy
      · exact hnaive y hy
      · simp only [List.mem_map] at hy
        obtain ⟨x, ⟨x0, _, hx0⟩, hxy⟩ := hy
        subst hxy
        subst hx0
        constructor
        · exact le_min (le_max_right x0 0) (by nlinarith [hmax0])
        · exact min_le_right _ _
  · intro raw hfo hdiv
    subst hfo
    simp only [ARIMA.fit_predict, ARIMA.safetyRails, hempty, Bool.false_eq_true,
      if_false, qmax_eq_max, qmin_eq_min]
    obtain ⟨x, hxmem, hxgt⟩ := hdiv
    have hany : (raw.map (fun x => max x 0)).any
        (fun x => decide (max (listMax data * 100) ((10:ℚ)^9) < x)) = true := by
      rw [List.any_eq_true]
      refine ⟨max x 0, List.mem_map_of_mem _ hxmem, ?_⟩
      simp only [decide_eq_true_eq]
      exact lt_of_lt_of_le hxgt (le_max_left x 0)
    rw [hany]
    simp

/-- C1, witness for `arima_output_bounded` at the series `[2, 5]`,
horizon 2, fit outcome `[100, 3]`. -/
theorem arima_output_bounded_witness :
    (1 ≤ 2 ∧ ([(2:ℚ), 5] : List ℚ) ≠ [] ∧ ∀ v ∈ ([(2:ℚ), 5] : List ℚ), 0 ≤ v) ∧
    (∀ y ∈ ARIMA.fit_predict [(2:ℚ), 5] 2 (some [100, 3]),
        0 ≤ y ∧ y ≤ listMax [(2:ℚ), 5] * 10) :=
  ⟨⟨by norm_num, by decide, by decide⟩,
    (arima_output_bounded [(2:ℚ), 5] 2 (some [100, 3]) (by norm_num) (by decide)
      (by decide)).1⟩

/-- C1, counterexample to the claim as stated: on the input series `[-1]`
(a legal input series) with horizon 1, when the fitted model forecasts the
raw value `1`, the safety rails return `[-10]`, which is negative — so the
claim that predictions are always non-negative fails. -/
theorem arima_negative_series_counterexample :
    ARIMA.fit_predict [(-1 : ℚ)] 1 (some [1]) = [(-10 : ℚ)] ∧
    ((-10 : ℚ) < 0) := by
  refine ⟨?_, by norm_num⟩
  norm_num [ARIMA.fit_predict, ARIMA.safetyRails, ARIMA.naiveForecast, listMax,
    qmax, qmin]

/-- C10: for every horizon and every fitting-oracle behaviour, the
statistical forecaster applied to the empty series returns exactly
`horizon` predictions, each equal to 0: the internal fitting failure on
empty data is absorbed and the fallback substitutes 0 for the undefined
last observed value. -/
theorem arima_empty_series_zero (horizon : ℕ) (fitOutcome : Option (List ℚ))
    (hh : 1 ≤ horizon) :
    ARIMA.fit_predict [] horizon fitOutcome = List.replicate horizon 0 ∧
    (ARIMA.fit_predict [] horizon fitOutcome).length = horizon := by
  constructor
  · rfl
  · simp [ARIMA.fit_predict, ARIMA.naiveForecast]

/-- C10, witness for `arima_empty_series_zero` at horizon 3 with a
fit oracle that pretends to return `[5]`. -/
theorem arima_empty_series_zero_witness :
    ARIMA.fit_predict [] 3 (some [5]) = List.replicate 3 0 :=
  (arima_empty_series_zero 3 (some [5]) (by norm_num)).1

/-! ## Metrics engine (services/metrics.py) -/

/-- Python `round(x, nd)` on an exact rational: round half to even at `nd`
decimal digits, as an integer numerator over `10 ^ nd`.  (CPython rounds the
binary float representation; the exact-rational idealisation is used
throughout.) -/
def roundHalfEven (x : ℚ) : ℤ :=
  if x - ⌊x⌋ < 1 / 2 then ⌊x⌋
  else if 1 / 2 < x - ⌊x⌋ then ⌊x⌋ + 1
  else if 2 ∣ ⌊x⌋ then ⌊x⌋ else ⌊x⌋ + 1

/-- `round(x, nd)` for a rational value. -/
def pyRound (nd : ℕ) (x : ℚ) : ℚ := (roundHalfEven (x * 10 ^ nd) : ℚ) / 10 ^ nd

/-- Round half to even on a real value (used for the square-root metrics). -/
noncomputable def roundHalfEvenR (x : ℝ) : ℤ :=
  if x - ⌊x⌋ < 1 / 2 then ⌊x⌋
  else if 1 / 2 < x - ⌊x⌋ then ⌊x⌋ + 1
  else if 2 ∣ ⌊x⌋ then ⌊x⌋ else ⌊x⌋ + 1

/-- `round(x, nd)` for a real value. -/
noncomputable def pyRoundR (nd : ℕ) (x : ℝ) : ℝ :=
  (roundHalfEvenR (x * 10 ^ nd) : ℝ) / 10 ^ nd

theorem roundHalfEven_intCast (k : ℤ) : roundHalfEven (k : ℚ) = k := by
  unfold roundHalfEven
  rw [Int.floor_intCast]
  norm_num

theorem pyRound_intCast (nd : ℕ) (k : ℤ) : pyRound nd (k : ℚ) = k := by
  unfold pyRound
  have h : ((k : ℚ) * 10 ^ nd) = ((k * 10 ^ nd : ℤ) : ℚ) := by push_cast; ring
  rw [h, roundHalfEven_intCast]
  push_cast
  have h10 : ((10 : ℚ) ^ nd) ≠ 0 := by positivity
  field_simp

theorem pyRoundR_zero (nd : ℕ) : pyRoundR nd 0 = 0 := by
  unfold pyRoundR roundHalfEvenR
  norm_num

theorem pyRound_zero (nd : ℕ) : pyRound nd 0 = 0 := by
  have h := pyRound_intCast nd 0
  simpa using h

theorem pyRound_one (nd : ℕ) : pyRound nd 1 = 1 := by
  have h := pyRound_intCast nd 1
  simpa using h

theorem pyRound_hundred (nd : ℕ) : pyRound nd 100 = 100 := by
  have h := pyRound_intCast nd 100
  simpa using h

namespace Metrics

/-- services/metrics.py lines 18-21: both arrays are truncated to their
common length; `List.zip` pairs them up to exactly that length. -/
def paired (actual predicted : List ℚ) : List (ℚ × ℚ) := actual.zip predicted

/-- `np.mean` of a list of rationals.  On the empty list this is `0 / 0 = 0`
in `ℚ` whereas numpy produces `nan`; every branch decision made on such a
mean below (`> 0` comparisons) is `False` in both models, so the embedding
agrees with the code on all control flow. -/
def qMean (l : List ℚ) : ℚ := l.sum / l.length

/-- Line 24: mean absolute error. -/
def mae (a p : List ℚ) : ℚ := qMean ((paired a p).map (fun t => qabs (t.1 - t.2)))

/-- Line 27, the radicand of the RMSE: `np.mean((actual - predicted) ** 2)`. -/
def mse (a p : List ℚ) : ℚ := qMean ((paired a p).map (fun t => (t.1 - t.2) ^ 2))

/-- Line 27: root mean squared error. -/
noncomputable def rmse (a p : List ℚ) : ℝ := Real.sqrt (mse a p)

/-- Lines 29-35: MAPE over the entries with non-zero actual; `0.0` when no
such entry exists. -/
def mape (a p : List ℚ) : ℚ :=
  if ((paired a p).filter (fun t => decide (t.1 ≠ 0))).isEmpty then 0
  else
    qMean (((paired a p).filter (fun t => decide (t.1 ≠ 0))).map
      (fun t => qabs ((t.1 - t.2) / t.1))) * 100

/-- Lines 37-45: symmetric MAPE over the entries with non-zero denominator
`(|actual| + |predicted|) / 2`; `0.0` otherwise. -/
def smape (a p : List ℚ) : ℚ :=
  if ((paired a p).filter
      (fun t => decide ((qabs t.1 + qabs t.2) / 2 ≠ 0))).isEmpty then 0
  else
    qMean (((paired a p).filter
        (fun t => decide ((qabs t.1 + qabs t.2) / 2 ≠ 0))).map
      (fun t => qabs (t.1 - t.2) / ((qabs t.1 + qabs t.2) / 2))) * 100

/-- The truncated actual array (`actual[:min_len]`). -/
def actualTrunc (a p : List ℚ) : List ℚ := (paired a p).map Prod.fst

/-- Line 49: residual sum of squares. -/
def ssRes (a p : List ℚ) : ℚ := ((paired a p).map (fun t => (t.1 - t.2) ^ 2)).sum

/-- Line 50: total sum of squares of the truncated actual array. -/
def ssTot (a p : List ℚ) : ℚ :=
  ((actualTrunc a p).map (fun x => (x - qMean (actualTrunc a p)) ^ 2)).sum

/-- Lines 47-54: coefficient of determination, `0.0` when `ss_tot ≤ 0`. -/
def r2 (a p : List ℚ) : ℚ :=
  if 0 < ssTot a p then 1 - ssRes a p / ssTot a p else 0

/-- Line 61: mean squared error of the one-step-naive forecast of `a'`. -/
def naiveMse (l : List ℚ) : ℚ := qMean ((l.zip l.tail).map (fun t => (t.2 - t.1) ^ 2))

/-- Lines 56-67, the radicand of the RMSSE: `mse / naive_mse` when there are
at least 2 actual points and the naive MSE is positive, else 0 (so that
`rmsse = Real.sqrt` of this value agrees with the code, using
`sqrt 0 = 0`). -/
def rmsseRad (a p : List ℚ) : ℚ :=
  if 1 < (actualTrunc a p).length then
    if 0 < naiveMse (actualTrunc a p) then mse a p / naiveMse (actualTrunc a p)
    else 0
  else 0

/-- Lines 56-67: root mean squared scaled error. -/
noncomputable def rmsse (a p : List ℚ) : ℝ := Real.sqrt (rmsseRad a p)

/-- Lines 69-76: WAPE-based accuracy, `max(0, (1 - mae/mean) * 100)` when the
truncated actual mean is positive, else `0.0`. -/
def accuracy (a p : List ℚ) : ℚ :=
  if 0 < qMean (actualTrunc a p) then
    qmax 0 ((1 - mae a p / qMean (actualTrunc a p)) * 100)
  else 0

/-- Lines 78-86: the returned metrics dictionary, with each value rounded
(2 decimal digits, 4 for `r2` and `rmsse`).  The two square-root entries
live in `ℝ`; all others are rationals coerced into `ℝ`. -/
noncomputable def metricsDict (a p : List ℚ) : List (String × ℝ) :=
  [("mae", ((pyRound 2 (mae a p) : ℚ) : ℝ)),
   ("rmse", pyRoundR 2 (rmse a p)),
   ("mape", ((pyRound 2 (mape a p) : ℚ) : ℝ)),
   ("smape", ((pyRound 2 (smape a p) : ℚ) : ℝ)),
   ("r2", ((pyRound 4 (r2 a p) : ℚ) : ℝ)),
   ("rmsse", pyRoundR 4 (rmsse a p)),
   ("accuracy", ((pyRound 2 (accuracy a p) : ℚ) : ℝ))]

end Metrics

theorem zip_self (l : List ℚ) : l.zip l = l.map (fun a => (a, a)) := by
  induction l with
  | nil => rfl
  | cons a t ih => simp [List.zip_cons_cons, ih]

theorem sum_eq_zero_of_all_zero {l : List ℚ} (h : ∀ y ∈ l, y = 0) :
    l.sum = 0 := by
  induction l with
  | nil => rfl
  | cons a t ih =>
    rw [List.sum_cons, h a (List.mem_cons_self a t),
      ih (fun y hy => h y (List.mem_cons_of_mem a hy))]
    norm_num

theorem actualTrunc_self (x : List ℚ) : Metrics.actualTrunc x x = x := by
  unfold Metrics.actualTrunc Metrics.paired
  rw [zip_self, List.map_map]
  have h : (Prod.fst ∘ fun a : ℚ => (a, a)) = fun a => a := rfl
  rw [h]
  exact List.map_id' x

theorem mae_self (x : List ℚ) : Metrics.mae x x = 0 := by
  unfold Metrics.mae Metrics.paired Metrics.qMean
  rw [zip_self, List.map_map, sum_eq_zero_of_all_zero]
  · norm_num
  · intro y hy
    simp only [List.mem_map] at hy
    obtain ⟨z, _, hz⟩ := hy
    simp [← hz, Function.comp, qabs_eq_abs]

theorem mse_self (x : List ℚ) : Metrics.mse x x = 0 := by
  unfold Metrics.mse Metrics.paired Metrics.qMean
  rw [zip_self, List.map_map, sum_eq_zero_of_all_zero]
  · norm_num
  · intro y hy
    simp only [List.mem_map] at hy
    obtain ⟨z, _, hz⟩ := hy
    simp [← hz, Function.comp]

theorem mape_self (x : List ℚ) : Metrics.mape x x = 0 := by
  unfold Metrics.mape Metrics.paired Metrics.qMean
  split
  · rfl
  · rw [zip_self, List.filter_map, List.map_map, sum_eq_zero_of_all_zero]
    · norm_num
    · intro y hy
      simp only [List.mem_map] at hy
      obtain ⟨z, _, hz⟩ := hy
      simp [← hz, Function.comp, qabs_eq_abs]

theorem ssRes_self (x : List ℚ) : Metrics.ssRes x x = 0 := by
  unfold Metrics.ssRes Metrics.paired
  rw [zip_self, List.map_map, sum_eq_zero_of_all_zero]
  intro y hy
  simp only [List.mem_map] at hy
  obtain ⟨z, _, hz⟩ := hy
  simp [← hz, Function.comp]

theorem ssTot_pos_of_nonconstant (x : List ℚ)
    (hx : ∃ a ∈ x, ∃ b ∈ x, a ≠ b) : 0 < Metrics.ssTot x x := by
  obtain ⟨a, ha, b, hb, hab⟩ := hx
  have hy : ∃ y ∈ x, y ≠ Metrics.qMean (Metrics.actualTrunc x x) := by
    by_cases h : a = Metrics.qMean (Metrics.actualTrunc x x)
    · exact ⟨b, hb, fun hbm => hab (h ▸ hbm ▸ rfl)⟩
    · exact ⟨a, ha, h⟩
  obtain ⟨y, hymem, hyne⟩ := hy
  unfold Metrics.ssTot
  have hterm : (y - Metrics.qMean (Metrics.actualTrunc x x)) ^ 2 ∈
      (Metrics.actualTrunc x x).map
        (fun z => (z - Metrics.qMean (Metrics.actualTrunc x x)) ^ 2) := by
    refine List.mem_map_of_mem _ ?_
    rw [actualTrunc_self]
    exact hymem
  have hpos : 0 < (y - Metrics.qMean (Metrics.actualTrunc x x)) ^ 2 := by
    have : y - Metrics.qMean (Metrics.actualTrunc x x) ≠ 0 := sub_ne_zero.mpr hyne
    positivity
  refine lt_of_lt_of_le hpos (List.single_le_sum ?_ _ hterm)
  intro z hz
  simp only [List.mem_map] at hz
  obtain ⟨w, _, hw⟩ := hz
  rw [← hw]
  positivity

theorem r2_self (x : List ℚ) (hx : ∃ a ∈ x, ∃ b ∈ x, a ≠ b) :
    Metrics.r2 x x = 1 := by
  unfold Metrics.r2
  rw [if_pos (ssTot_pos_of_nonconstant x hx), ssRes_self]
  norm_num

theorem accuracy_self (x : List ℚ) (hm : 0 < Metrics.qMean x) :
    Metrics.accuracy x x = 100 := by
  unfold Metrics.accuracy
  rw [actualTrunc_self, if_pos hm, mae_self]
  rw [qmax_eq_max]
  norm_num

/-- C3, theorem (amended): for every non-constant series `x` whose mean is
positive, the metrics engine applied to `(x, x)` reports MAE = 0, RMSE = 0,
MAPE = 0, R² = 1 and accuracy = 100. -/
theorem metrics_identity (x : List ℚ) (hx : ∃ a ∈ x, ∃ b ∈ x, a ≠ b)
    (hm : 0 < Metrics.qMean x) :
    List.lookup "mae" (Metrics.metricsDict x x) = some 0 ∧
    List.lookup "rmse" (Metrics.metricsDict x x) = some 0 ∧
    List.lookup "mape" (Metrics.metricsDict x x) = some 0 ∧
    List.lookup "r2" (Metrics.metricsDict x x) = some 1 ∧
    List.lookup "accuracy" (Metrics.metricsDict x x) = some 100 := by
  have hrmse : Metrics.rmse x x = 0 := by
    unfold Metrics.rmse
    rw [mse_self]
    simp
  refine ⟨?_, ?_, ?_, ?_, ?_⟩ <;>
    simp [Metrics.metricsDict, List.lookup, mae_self, mape_self, hrmse,
      r2_self x hx, accuracy_self x hm, pyRoundR_zero, pyRound_zero,
      pyRound_one, pyRound_hundred]

/-- C3, witness for `metrics_identity` at the series `[1, 2]`. -/
theorem metrics_identity_witness :
    (∃ a ∈ [(1:ℚ), 2], ∃ b ∈ [(1:ℚ), 2], a ≠ b) ∧
    (0 < Metrics.qMean [(1:ℚ), 2]) ∧
    List.lookup "accuracy" (Metrics.metricsDict [(1:ℚ), 2] [(1:ℚ), 2]) =
      some 100 :=
  ⟨⟨1, by norm_num, 2, by norm_num⟩, by norm_num [Metrics.qMean],
    (metrics_identity [(1:ℚ), 2] ⟨1, by norm_num, 2, by norm_num⟩
      (by norm_num [Metrics.qMean])).2.2.2.2⟩

/-- C3, counterexample to the claim as stated: the series `[-1, -2]` is
non-constant with non-zero mean `-3/2`, yet the reported accuracy is 0, not
100, because the code requires a strictly positive mean. -/
theorem metrics_identity_counterexample :
    List.lookup "accuracy" (Metrics.metricsDict [(-1:ℚ), -2] [(-1:ℚ), -2]) =
      some 0 ∧ ((0 : ℝ) ≠ 100) ∧ Metrics.qMean [(-1:ℚ), -2] ≠ 0 := by
  refine ⟨?_, by norm_num, by norm_num [Metrics.qMean]⟩
  have hacc : Metrics.accuracy [(-1:ℚ), -2] [(-1:ℚ), -2] = 0 := by
    unfold Metrics.accuracy
    rw [actualTrunc_self, if_neg]
    norm_num [Metrics.qMean]
  simp [Metrics.metricsDict, List.lookup, hacc, pyRound_zero]

/-! ## Orchestrator scoring step (services/forecast_service.py lines 137-151) -/

/-- The literal default dictionary of line 151:
`{'mae': 0, 'rmse': 0, 'mape': 0, 'accuracy': 0}`. -/
def zeroMetricsDict : List (String × ℝ) :=
  [("mae", 0), ("rmse", 0), ("mape", 0), ("accuracy", 0)]

/-- services/forecast_service.py lines 137-151: score against the validation
partition when it is non-empty, else against the final
`min(horizon, len(train) // 5)` training points, else return the literal
zero dictionary. -/
noncomputable def scoringMetrics (train test preds : List ℚ) (horizon : ℕ) :
    List (String × ℝ) :=
  if 0 < test.length then Metrics.metricsDict test (preds.take test.length)
  else if 0 < min horizon (train.length / 5) then
    Metrics.metricsDict
      (train.drop (train.length - min horizon (train.length / 5)))
      (preds.take (min horizon (train.length / 5)))
  else zeroMetricsDict

theorem metricsDict_ne_zeroMetricsDict (a p : List ℚ) :
    Metrics.metricsDict a p ≠ zeroMetricsDict := by
  intro h
  have hlen := congrArg List.length h
  simp [Metrics.metricsDict, zeroMetricsDict] at hlen

/-- C4, theorem (amended): the scoring step returns the zero-valued metrics
dictionary exactly when the validation partition is empty and the fallback
slice of the final `min(horizon, |train|/5)` training points is also empty;
that dictionary contains only the four scores MAE, RMSE, MAPE and accuracy,
each equal to zero — the sMAPE, R² and RMSSE entries of the full bundle are
absent from it. -/
theorem scoring_zero_bundle (train test preds : List ℚ) (horizon : ℕ) :
    (scoringMetrics train test preds horizon = zeroMetricsDict ↔
      (test = [] ∧ min horizon (train.length / 5) = 0)) ∧
    ((test = [] ∧ min horizon (train.length / 5) = 0) →
      (∀ kv ∈ scoringMetrics train test preds horizon, kv.2 = 0) ∧
      List.lookup "smape" (scoringMetrics train test preds horizon) = none ∧
      List.lookup "r2" (scoringMetrics train test preds horizon) = none ∧
      List.lookup "rmsse" (scoringMetrics train test preds horizon) = none) := by
  have hzero : (test = [] ∧ min horizon (train.length / 5) = 0) →
      scoringMetrics train test preds horizon = zeroMetricsDict := by
    rintro ⟨h1, h2⟩
    unfold scoringMetrics
    rw [if_neg (by simp [h1]), if_neg (by omega)]
  constructor
  · constructor
    · intro h
      unfold scoringMetrics at h
      by_cases h1 : 0 < test.length
      · rw [if_pos h1] at h
        exact absurd h (metricsDict_ne_zeroMetricsDict _ _)
      · rw [if_neg h1] at h
        by_cases h2 : 0 < min horizon (train.length / 5)
        · rw [if_pos h2] at h
          exact absurd h (metricsDict_ne_zeroMetricsDict _ _)
        · exact ⟨List.length_eq_zero.mp (by omega), by omega⟩
    · exact hzero
  · intro h
    rw [hzero h]
    refine ⟨?_, by simp [zeroMetricsDict, List.lookup],
      by simp [zeroMetricsDict, List.lookup],
      by simp [zeroMetricsDict, List.lookup]⟩
    intro kv hkv
    simp only [zeroMetricsDict, List.mem_cons, List.not_mem_nil, or_false] at hkv
    rcases hkv with h' | h' | h' | h' <;> simp [h']

/-- C4, witness for `scoring_zero_bundle`: an empty validation partition with
a 4-point train series and horizon 5 produces the zero dictionary and the
R² entry is absent. -/
theorem scoring_zero_bundle_witness :
    scoringMetrics [(1:ℚ), 2, 3, 4] [] [9, 9, 9, 9, 9] 5 = zeroMetricsDict ∧
    List.lookup "r2" (scoringMetrics [(1:ℚ), 2, 3, 4] [] [9, 9, 9, 9, 9] 5) =
      none :=
  ⟨(scoring_zero_bundle [(1:ℚ), 2, 3, 4] [] [9, 9, 9, 9, 9] 5).1.mpr
      ⟨rfl, by decide⟩,
    ((scoring_zero_bundle [(1:ℚ), 2, 3, 4] [] [9, 9, 9, 9, 9] 5).2
      ⟨rfl, by decide⟩).2.2.1⟩

/-- C4, counterexample to the claim as stated: when the validation partition
and the fallback slice are both empty, the returned metrics dictionary does
not contain the full fixed set of scores — the sMAPE, R² and RMSSE keys are
missing (only MAE, RMSE, MAPE, accuracy are present, each zero). -/
theorem scoring_zero_bundle_counterexample :
    List.lookup "smape" (scoringMetrics [(1:ℚ), 2, 3, 4] [] [9] 5) = none ∧
    List.lookup "r2" (scoringMetrics [(1:ℚ), 2, 3, 4] [] [9] 5) = none ∧
    List.lookup "rmsse" (scoringMetrics [(1:ℚ), 2, 3, 4] [] [9] 5) = none ∧
    List.lookup "mae" (scoringMetrics [(1:ℚ), 2, 3, 4] [] [9] 5) = some 0 := by
  have h : scoringMetrics [(1:ℚ), 2, 3, 4] [] [9] 5 = zeroMetricsDict := by
    unfold scoringMetrics
    rw [if_neg (by simp), if_neg (by decide)]
  rw [h]
  refine ⟨by simp [zeroMetricsDict, List.lookup],
    by simp [zeroMetricsDict, List.lookup],
    by simp [zeroMetricsDict, List.lookup],
    by simp [zeroMetricsDict, List.lookup]⟩

/-! ## Boosted-tree forecaster (models/xgboost_model.py) -/

/-- The granularity string passed to `create_features`: the three known
values plus the catch-all else branch. -/
inductive GranX where
  | daily
  | weekly
  | monthly
  | other
deriving DecidableEq

/-- models/xgboost_model.py lines 31-43: lag periods per granularity
(`n_lags = 7` as instantiated by every caller, so the else branch is
`range(1, 8)`). -/
def lagTable : GranX → List ℕ
  | .daily => [1, 7, 14, 30]
  | .weekly => [1, 4, 12, 52]
  | .monthly => [1, 3, 6, 12]
  | .other => [1, 2, 3, 4, 5, 6, 7]

/-- models/xgboost_model.py lines 31-43: rolling windows per granularity. -/
def rollTable : GranX → List ℕ
  | .daily => [3, 7, 14, 30]
  | .weekly => [4, 12, 26]
  | .monthly => [3, 6, 12]
  | .other => [3, 7, 14]

namespace XGB

/-- Whether row `i` (0-based) of the engineered feature frame of
`create_features` (lines 25-87) has no NaN entry, so that it survives the
`dropna()` of line 113:
* a lag column `lag_l` exists when `l ≤ len` (line 47) and its row `i` is
  NaN iff `i < l`;
* a rolling column over window `w` exists when `len ≥ w` (line 52) and,
  being computed on the series shifted by one, its row `i` is NaN iff
  `i < w`;
* `ema_7`/`ema_30` exist when `len ≥ 7`/`≥ 30` and are NaN only at row 0;
* `roc_7` (`pct_change(periods=7)`, line 67) exists when `len ≥ 7` and its
  row `i` is NaN iff `i < 7`, or both `vals[i-7]` and `vals[i]` are zero
  (`0/0` is NaN; a nonzero value over zero is `±inf`, which `dropna` keeps);
* calendar features (lines 70-85) are never NaN, and `lag1_x_dow` is NaN
  exactly where `lag_1` is, so datetime-index availability does not change
  this predicate. -/
def rowComplete (vals : List ℚ) (g : GranX) (i : ℕ) : Bool :=
  ((lagTable g).all fun l => decide (l ≤ vals.length → l ≤ i)) &&
  ((rollTable g).all fun w => decide (w ≤ vals.length → w ≤ i)) &&
  (decide (7 ≤ vals.length → 1 ≤ i)) &&
  (decide (30 ≤ vals.length → 1 ≤ i)) &&
  (decide (7 ≤ vals.length →
    (7 ≤ i ∧ ¬(vals.getD (i - 7) 0 = 0 ∧ vals.getD i 0 = 0))))

/-- Number of rows surviving `df.dropna()` (line 113). -/
def completeCount (vals : List ℚ) (g : GranX) : ℕ :=
  ((List.range vals.length).filter (fun i => rowComplete vals g i)).length

/-- `np.full(horizon, data.iloc[-1])` (lines 117 and 172). -/
def naiveFull (vals : List ℚ) (horizon : ℕ) : List ℚ :=
  List.replicate horizon (vals.getLastD 0)

/-- Lines 146-162, the recursive multi-step loop: at each step the trained
regressor (the `oracle`) is evaluated on the features of the series-so-far,
the prediction is clamped to non-negative (`pred = max(0, pred)`, line 157)
and appended to the working series before the next step. -/
def recurse (oracle : List ℚ → ℚ) : ℕ → List ℚ → List ℚ
  | 0, _ => []
  | k + 1, cur => qmax 0 (oracle cur) :: recurse oracle k (cur ++ [qmax 0 (oracle cur)])

/-- models/xgboost_model.py lines 89-172, `XGBoostForecaster.fit_predict`:
* on an empty series, both naive fallbacks evaluate `data.iloc[-1]`, which
  raises out of the method (`none`);
* fewer than 10 feature-complete rows: the naive fallback (line 117);
* without a datetime index, step 0 of the loop raises a `TypeError` at
  line 161 (`int + DateOffset`), which the except-block (line 168) turns
  into the naive fallback;
* otherwise the recursive loop produces one clamped oracle prediction per
  step. -/
def fit_predict (vals : List ℚ) (hasDatetimeIndex : Bool) (g : GranX)
    (horizon : ℕ) (oracle : List ℚ → ℚ) : Option (List ℚ) :=
  if vals.isEmpty then none
  else if completeCount vals g < 10 then some (naiveFull vals horizon)
  else if !hasDatetimeIndex then some (naiveFull vals horizon)
  else some (recurse oracle horizon vals)

theorem recurse_length (oracle : List ℚ → ℚ) (k : ℕ) (cur : List ℚ) :
    (recurse oracle k cur).length = k := by
  induction k generalizing cur with
  | zero => rfl
  | succ k ih => simp [recurse, ih]

theorem recurse_nonneg (oracle : List ℚ → ℚ) (k : ℕ) (cur : List ℚ)
    (y : ℚ) (hy : y ∈ recurse oracle k cur) : 0 ≤ y := by
  induction k generalizing cur with
  | zero => cases hy
  | succ k ih =>
    rcases List.mem_cons.mp hy with h | h
    · rw [h, qmax_eq_max]
      exact le_max_left 0 _
    · exact ih _ h

end XGB

/-- C9, theorem (amended): for every series of length at least 10, every
granularity, every horizon h ≥ 1, with or without a datetime index, and
every regressor behaviour, the boosted-tree forecaster returns (without
raising) exactly h values; they are all non-negative whenever the last
value of the series is non-negative (the naive fallback repeats the last
value, so a negative final value yields negative fallback output). -/
theorem xgb_length_nonneg (vals : List ℚ) (hasIdx : Bool) (g : GranX)
    (horizon : ℕ) (oracle : List ℚ → ℚ) (hlen : 10 ≤ vals.length)
    (hh : 1 ≤ horizon) :
    ∃ out, XGB.fit_predict vals hasIdx g horizon oracle = some out ∧
      out.length = horizon ∧
      (0 ≤ vals.getLastD 0 → ∀ y ∈ out, 0 ≤ y) := by
  have hne : vals.isEmpty = false := by
    rcases vals with _ | _
    · simp at hlen
    · rfl
  have hnaive : (XGB.naiveFull vals horizon).length = horizon ∧
      (0 ≤ vals.getLastD 0 → ∀ y ∈ XGB.naiveFull vals horizon, 0 ≤ y) := by
    refine ⟨List.length_replicate _ _, ?_⟩
    intro h0 y hy
    rw [List.eq_of_mem_replicate hy]
    exact h0
  unfold XGB.fit_predict
  rw [hne]
  by_cases hc : XGB.completeCount vals g < 10
  · rw [if_neg (by simp), if_pos hc]
    exact ⟨_, rfl, hnaive.1, hnaive.2⟩
  · rw [if_neg (by simp), if_neg hc]
    cases hasIdx with
    | false =>
      rw [if_pos (by simp)]
      exact ⟨_, rfl, hnaive.1, hnaive.2⟩
    | true =>
      rw [if_neg (by simp)]
      exact ⟨_, rfl, XGB.recurse_length oracle horizon vals,
        fun _ y hy => XGB.recurse_nonneg oracle horizon vals y hy⟩

/-- C9, witness for `xgb_length_nonneg` at a length-10 series of ones,
daily granularity, horizon 2. -/
theorem xgb_length_nonneg_witness :
    ∃ out, XGB.fit_predict [(1:ℚ), 1, 1, 1, 1, 1, 1, 1, 1, 1] true .daily 2
      (fun _ => 3) = some out ∧ out.length = 2 :=
  match xgb_length_nonneg [(1:ℚ), 1, 1, 1, 1, 1, 1, 1, 1, 1] true .daily 2
    (fun _ => 3) (by decide) (by decide) with
  | ⟨out, h1, h2, _⟩ => ⟨out, h1, h2⟩

/-- C9, counterexample to the claim as stated: the length-10 series ending
in a negative value reaches the `< 10` feature-complete-row fallback (only
rows 7, 8, 9 are complete for daily granularity at length 10), so the
output replicates the negative last value and is not non-negative, even
though the series length is ≥ 10. -/
theorem xgb_negative_fallback_counterexample :
    XGB.fit_predict [(1:ℚ), 1, 1, 1, 1, 1, 1, 1, 1, -1] true .daily 2
      (fun _ => 0) = some [-1, -1] ∧
    ((-1 : ℚ) < 0) ∧
    ([(1:ℚ), 1, 1, 1, 1, 1, 1, 1, 1, -1].length = 10) := by
  refine ⟨by decide, by norm_num, by decide⟩

/-! ## Baseline forecaster (models/baseline.py) and auto-selection
(services/forecast_service.py lines 22-86) -/

/-- models/baseline.py lines 45-54, the seasonal-naive method: prediction
`i` looks back `seasonal_period - (i % seasonal_period)` steps from the end
when that is within range, else repeats the last value.  `data.iloc[-1]`
(and `data.iloc[idx]`) raise an `IndexError` on an empty series whenever at
least one step is produced, hence the `none` case. -/
def seasonalNaive (data : List ℚ) (horizon sp : ℕ) : Option (List ℚ) :=
  if data.isEmpty && decide (horizon ≠ 0) then none
  else some ((List.range horizon).map fun i =>
    if sp - i % sp ≤ data.length then data.getD (data.length - (sp - i % sp)) 0
    else data.getLastD 0)

/-- The three concrete strategies tried during auto-selection. -/
inductive Strategy where
  | baseline
  | arima
  | xgboost
deriving DecidableEq

/-- services/forecast_service.py lines 68-73 and 79: the per-strategy score
record `{'accuracy', 'mae', 'rmse', 'r2'}`; `mae`/`rmse` are `float('inf')`
(here `⊤`) for a failed trial. -/
structure ScoreEntry where
  accuracy : ℚ
  mae : WithTop ℝ
  rmse : WithTop ℝ
  r2 : ℚ

/-- Line 79: the score of a strategy that raised during its trial. -/
def failScore : ScoreEntry :=
  { accuracy := 0, mae := ⊤, rmse := ⊤, r2 := -1 }

/-- Lines 67-73: the score of a successful trial, taken from the metrics
engine (values rounded exactly as `calculate_metrics` rounds them). -/
noncomputable def successScore (actual preds : List ℚ) : ScoreEntry :=
  { accuracy := pyRound 2 (Metrics.accuracy actual preds)
    mae := ((pyRound 2 (Metrics.mae actual preds) : ℚ) : ℝ)
    rmse := (pyRoundR 2 (Metrics.rmse actual preds) : ℝ)
    r2 := pyRound 4 (Metrics.r2 actual preds) }

/-- Lines 63-67: a trial outcome is scored against
`test_series.values[:val_horizon]` and `predictions[:len(actual_vals)]`;
a raised trial gets `failScore`. -/
noncomputable def trialScore (test : List ℚ) (valH : ℕ) :
    Option (List ℚ) → ScoreEntry
  | none => failScore
  | some preds =>
      successScore (test.take valH) (preds.take (test.take valH).length)

/-- Line 82's ranking key `(accuracy, r2)`. -/
def lexKey (s : ScoreEntry) : ℚ × ℚ := (s.accuracy, s.r2)

/-- Python's `<` on the pairs compared by `max(..., key=...)`. -/
def lexLT (a b : ℚ × ℚ) : Prop := a.1 < b.1 ∨ (a.1 = b.1 ∧ a.2 < b.2)

instance (a b : ℚ × ℚ) : Decidable (lexLT a b) := by
  unfold lexLT
  infer_instance

theorem lexLT_trans {a b c : ℚ × ℚ} (h1 : lexLT a b) (h2 : lexLT b c) :
    lexLT a c := by
  rcases h1 with h1 | ⟨h1e, h1r⟩ <;> rcases h2 with h2 | ⟨h2e, h2r⟩
  · exact Or.inl (lt_trans h1 h2)
  · exact Or.inl (h2e ▸ h1)
  · exact Or.inl (h1e ▸ h2)
  · exact Or.inr ⟨h1e.trans h2e, lt_trans h1r h2r⟩

theorem lexLT_total {a b : ℚ × ℚ} (h : ¬ lexLT a b) : lexLT b a ∨ b = a := by
  rcases lt_trichotomy a.1 b.1 with h1 | h1 | h1
  · exact absurd (Or.inl h1) h
  · rcases lt_trichotomy a.2 b.2 with h2 | h2 | h2
    · exact absurd (Or.inr ⟨h1, h2⟩) h
    · exact Or.inr (Prod.ext h1.symm h2.symm)
    · exact Or.inl (Or.inr ⟨h1.symm, h2⟩)
  · exact Or.inl (Or.inl h1)

/-- Python `max(items, key=...)`: left-fold that replaces the current best
only on a strictly larger key, so the first maximal item wins. -/
def pickBest (x : Strategy × ScoreEntry) :
    List (Strategy × ScoreEntry) → Strategy × ScoreEntry
  | [] => x
  | y :: t => if lexLT (lexKey x.2) (lexKey y.2) then pickBest y t else pickBest x t

theorem lexLT_irrefl (a : ℚ × ℚ) : ¬ lexLT a a := by
  rintro (h | ⟨_, h⟩) <;> exact lt_irrefl _ h

theorem pickBest_max (x : Strategy × ScoreEntry)
    (l : List (Strategy × ScoreEntry)) :
    (pickBest x l = x ∨ pickBest x l ∈ l) ∧
    ¬ lexLT (lexKey (pickBest x l).2) (lexKey x.2) ∧
    ∀ y ∈ l, ¬ lexLT (lexKey (pickBest x l).2) (lexKey y.2) := by
  induction l generalizing x with
  | nil => exact ⟨Or.inl rfl, lexLT_irrefl _, by simp⟩
  | cons y t ih =>
    have hres : pickBest x (y :: t) =
        if lexLT (lexKey x.2) (lexKey y.2) then pickBest y t
        else pickBest x t := rfl
    by_cases hxy : lexLT (lexKey x.2) (lexKey y.2)
    · rw [hres, if_pos hxy]
      obtain ⟨hmem, hbest, hall⟩ := ih y
      refine ⟨Or.inr ?_, ?_, ?_⟩
      · rcases hmem with h | h
        · rw [h]
          exact List.mem_cons_self y t
        · exact List.mem_cons_of_mem y h
      · intro hlt
        exact hbest (lexLT_trans hlt hxy)
      · intro z hz
        rcases List.mem_cons.mp hz with h | h
        · rw [h]
          exact hbest
        · exact hall z h
    · rw [hres, if_neg hxy]
      obtain ⟨hmem, hbest, hall⟩ := ih x
      refine ⟨?_, hbest, ?_⟩
      · rcases hmem with h | h
        · exact Or.inl h
        · exact Or.inr (List.mem_cons_of_mem y h)
      · intro z hz
        rcases List.mem_cons.mp hz with h | h
        · subst h
          intro hlt
          rcases lexLT_total hxy with h' | h'
          · exact hbest (lexLT_trans hlt h')
          · rw [h'] at hlt
            exact hbest hlt
        · exact hall z h

/-- The validation horizon of line 42: `min(len(test_series), 30)`. -/
def valHorizon (test : List ℚ) : ℕ := min test.length 30

/-- services/forecast_service.py lines 47-79: the score each of the three
strategies receives during auto-selection.  The baseline trial is the
seasonal-naive forecaster; the statistical trial is `ARIMA.fit_predict`
(which never raises); the boosted-tree trial is `XGB.fit_predict`.  The
train/test series of the pipeline carry a datetime index, hence
`hasDatetimeIndex = true` for the boosted-tree trial. -/
noncomputable def strategyScore (train test : List ℚ) (g : GranX)
    (arimaOracle : Option (List ℚ)) (xgbOracle : List ℚ → ℚ) :
    Strategy → ScoreEntry
  | .baseline =>
      trialScore test (valHorizon test) (seasonalNaive train (valHorizon test) 7)
  | .arima =>
      trialScore test (valHorizon test)
        (some (ARIMA.fit_predict train (valHorizon test) arimaOracle))
  | .xgboost =>
      trialScore test (valHorizon test)
        (XGB.fit_predict train true g (valHorizon test) xgbOracle)

/-- services/forecast_service.py lines 22-86, `auto_select_model`: score the
three candidates in the order baseline, arima, xgboost, then take
`max(model_scores.items(), key=(accuracy, r2))[0]` (first maximal wins,
matching dict insertion order). -/
noncomputable def auto_select_model (train test : List ℚ) (g : GranX)
    (arimaOracle : Option (List ℚ)) (xgbOracle : List ℚ → ℚ) : Strategy :=
  (pickBest (.baseline, strategyScore train test g arimaOracle xgbOracle .baseline)
    [(.arima, strategyScore train test g arimaOracle xgbOracle .arima),
     (.xgboost, strategyScore train test g arimaOracle xgbOracle .xgboost)]).1

theorem pickBest_snd_consistent (train test : List ℚ) (g : GranX)
    (aO : Option (List ℚ)) (xO : List ℚ → ℚ) :
    (pickBest (.baseline, strategyScore train test g aO xO .baseline)
      [(.arima, strategyScore train test g aO xO .arima),
       (.xgboost, strategyScore train test g aO xO .xgboost)]).2 =
    strategyScore train test g aO xO (auto_select_model train test g aO xO) := by
  unfold auto_select_model
  obtain ⟨hmem, _, _⟩ := pickBest_max
    (.baseline, strategyScore train test g aO xO .baseline)
    [(.arima, strategyScore train test g aO xO .arima),
     (.xgboost, strategyScore train test g aO xO .xgboost)]
  rcases hmem with h | h
  · rw [h]
  · rcases List.mem_cons.mp h with h' | h'
    · rw [h']
    · rcases List.mem_cons.mp h' with h'' | h''
      · rw [h'']
      · simp at h''

/-- C8: when the strategy is "auto", selection scores the three concrete
strategies (seasonal-naive baseline, statistical, boosted-tree) against the
validation partition at horizon `min(|validation|, 30)`, returns one of the
three, and the returned one is maximal under the lexicographic
`(accuracy, R²)` ordering; a strategy whose trial raises (e.g. baseline and
boosted-tree on an empty train series with a non-empty validation set)
receives the score `(accuracy 0, R² -1)` and selection still completes. -/
theorem auto_select_spec (train test : List ℚ) (g : GranX)
    (arimaOracle : Option (List ℚ)) (xgbOracle : List ℚ → ℚ) :
    (auto_select_model train test g arimaOracle xgbOracle = .baseline ∨
     auto_select_model train test g arimaOracle xgbOracle = .arima ∨
     auto_select_model train test g arimaOracle xgbOracle = .xgboost) ∧
    (∀ s : Strategy,
      ¬ lexLT
        (lexKey (strategyScore train test g arimaOracle xgbOracle
          (auto_select_model train test g arimaOracle xgbOracle)))
        (lexKey (strategyScore train test g arimaOracle xgbOracle s))) ∧
    (train = [] → 1 ≤ valHorizon test →
      strategyScore train test g arimaOracle xgbOracle .baseline = failScore ∧
      strategyScore train test g arimaOracle xgbOracle .xgboost = failScore) ∧
    (∀ preds, seasonalNaive train (valHorizon test) 7 = some preds →
      strategyScore train test g arimaOracle xgbOracle .baseline =
        successScore (test.take (valHorizon test))
          (preds.take (test.take (valHorizon test)).length)) := by
  refine ⟨?_, ?_, ?_, ?_⟩
  · cases h : auto_select_model train test g arimaOracle xgbOracle
    · exact Or.inl rfl
    · exact Or.inr (Or.inl rfl)
    · exact Or.inr (Or.inr rfl)
  · intro s
    obtain ⟨hmem, hbest, hall⟩ := pickBest_max
      (.baseline, strategyScore train test g arimaOracle xgbOracle .baseline)
      [(.arima, strategyScore train test g arimaOracle xgbOracle .arima),
       (.xgboost, strategyScore train test g arimaOracle xgbOracle .xgboost)]
    have hsnd := pickBest_snd_consistent train test g arimaOracle xgbOracle
    rw [← hsnd]
    cases s
    · exact hbest
    · exact hall
        (.arima, strategyScore train test g arimaOracle xgbOracle .arima)
        (List.mem_cons_self _ _)
    · exact hall
        (.xgboost, strategyScore train test g arimaOracle xgbOracle .xgboost)
        (List.mem_cons_of_mem _ (List.mem_cons_self _ _))
  · intro htr hvh
    subst htr
    constructor
    · show trialScore test (valHorizon test)
        (seasonalNaive [] (valHorizon test) 7) = failScore
      have h : seasonalNaive [] (valHorizon test) 7 = none := by
        unfold seasonalNaive
        rw [if_pos]
        simp
        omega
      rw [h]
      rfl
    · show trialScore test (valHorizon test)
        (XGB.fit_predict [] true g (valHorizon test) xgbOracle) = failScore
      have h : XGB.fit_predict [] true g (valHorizon test) xgbOracle = none := rfl
      rw [h]
      rfl
  · intro preds hp
    show trialScore test (valHorizon test)
      (seasonalNaive train (valHorizon test) 7) = _
    rw [hp]
    rfl

/-- C8, witness for `auto_select_spec` on an empty train series with a
singleton validation set: the baseline trial raises and is scored
`(accuracy 0, R² -1)`, and the arima score is not lexicographically above
the selected strategy's score. -/
theorem auto_select_spec_witness :
    (strategyScore [] [(5:ℚ)] .daily (some [1]) (fun _ => 0) .baseline
      = failScore) ∧
    ¬ lexLT
      (lexKey (strategyScore [] [(5:ℚ)] .daily (some [1]) (fun _ => 0)
        (auto_select_model [] [(5:ℚ)] .daily (some [1]) (fun _ => 0))))
      (lexKey (strategyScore [] [(5:ℚ)] .daily (some [1]) (fun _ => 0)
        .arima)) :=
  ⟨((auto_select_spec [] [(5:ℚ)] .daily (some [1]) (fun _ => 0)).2.2.1 rfl
      (by decide)).1,
    (auto_select_spec [] [(5:ℚ)] .daily (some [1]) (fun _ => 0)).2.1 .arima⟩

/-! ## Calendar: pandas day-resolution timestamps

Timestamps are integers counting days since 1970-01-01 (day 0; hence
Sundays are exactly the days `≡ 3 (mod 7)`, 1970-01-04 being a Sunday).
Months are indexed by `m : ℤ` with `m = 12 * year + month0`
(`month0 ∈ [0, 11]`), so January 1970 is month `12 * 1970`.  `monthStart m`
is the day number of the first day of month `m` in the proleptic Gregorian
calendar. -/

/-- Gregorian leap year. -/
def IsLeap (y : ℤ) : Prop := y % 4 = 0 ∧ (y % 100 ≠ 0 ∨ y % 400 = 0)

instance (y : ℤ) : Decidable (IsLeap y) := by
  unfold IsLeap
  infer_instance

/-- Number of leap years in `[0, y)` (signed for negative `y`). -/
def leapsBefore (y : ℤ) : ℤ :=
  (y + 3) / 4 - (y + 99) / 100 + (y + 399) / 400

/-- Days from 0000-01-01 to `y`-01-01 (signed). -/
def daysToYear (y : ℤ) : ℤ := 365 * y + leapsBefore y

theorem daysToYear_succ (y : ℤ) :
    daysToYear (y + 1) = daysToYear y + 365 + (if IsLeap y then 1 else 0) := by
  unfold daysToYear leapsBefore
  by_cases h : IsLeap y
  · rw [if_pos h]
    unfold IsLeap at h
    omega
  · rw [if_neg h]
    unfold IsLeap at h
    omega

/-- Cumulative days before 0-based month `mo` in a non-leap year. -/
def cumMonthNL (mo : ℤ) : ℤ :=
  if mo ≤ 0 then 0 else if mo = 1 then 31 else if mo = 2 then 59
  else if mo = 3 then 90 else if mo = 4 then 120 else if mo = 5 then 151
  else if mo = 6 then 181 else if mo = 7 then 212 else if mo = 8 then 243
  else if mo = 9 then 273 else if mo = 10 then 304 else 334

/-- Cumulative days before 0-based month `mo` in year `y`. -/
def cumMonth (y mo : ℤ) : ℤ :=
  cumMonthNL mo + (if 2 ≤ mo ∧ IsLeap y then 1 else 0)

/-- The year of month index `m`. -/
def yearOf (m : ℤ) : ℤ := m / 12

/-- The 0-based month-of-year of month index `m`. -/
def moOf (m : ℤ) : ℤ := m % 12

/-- Day number (from 0000-01-01) of the first day of month `m`. -/
def monthStartAbs (m : ℤ) : ℤ := daysToYear (yearOf m) + cumMonth (yearOf m) (moOf m)

/-- Day number (from 1970-01-01, pandas' epoch) of the first day of
month `m`. -/
def monthStart (m : ℤ) : ℤ := monthStartAbs m - monthStartAbs (12 * 1970)

/-- Number of days of month `m`. -/
def monthLen (m : ℤ) : ℤ := monthStart (m + 1) - monthStart m

theorem monthStart_succ (m : ℤ) :
    monthStart (m + 1) = monthStart m + monthLen m := by
  unfold monthLen
  ring

theorem monthLen_ge_28 (m : ℤ) : 28 ≤ monthLen m ∧ monthLen m ≤ 31 := by
  have hmo : m = 12 * yearOf m + moOf m ∧ 0 ≤ moOf m ∧ moOf m < 12 := by
    unfold yearOf moOf
    omega
  by_cases hdec : moOf m = 11
  · have hy1 : yearOf (m + 1) = yearOf m + 1 := by
      unfold yearOf moOf at *
      omega
    have hm0 : moOf (m + 1) = 0 := by
      unfold yearOf moOf at *
      omega
    unfold monthLen monthStart monthStartAbs
    rw [hy1, hm0, hdec, daysToYear_succ]
    unfold cumMonth cumMonthNL
    by_cases hl : IsLeap (yearOf m) <;> simp [hl] <;> omega
  · have hy1 : yearOf (m + 1) = yearOf m := by
      unfold yearOf moOf at *
      omega
    have hm1 : moOf (m + 1) = moOf m + 1 := by
      unfold yearOf moOf at *
      omega
    unfold monthLen monthStart monthStartAbs
    rw [hy1, hm1]
    have hcase : moOf m = 0 ∨ moOf m = 1 ∨ moOf m = 2 ∨ moOf m = 3 ∨
        moOf m = 4 ∨ moOf m = 5 ∨ moOf m = 6 ∨ moOf m = 7 ∨ moOf m = 8 ∨
        moOf m = 9 ∨ moOf m = 10 := by omega
    unfold cumMonth cumMonthNL
    by_cases hl : IsLeap (yearOf m) <;>
      rcases hcase with h | h | h | h | h | h | h | h | h | h | h <;>
      rw [h] <;> simp [hl] <;> omega

theorem monthLen_pos (m : ℤ) : 0 < monthLen m := by
  have h := (monthLen_ge_28 m).1
  omega

theorem monthStart_strictMono : StrictMono monthStart := by
  apply strictMono_int_of_lt_succ
  intro m
  rw [monthStart_succ]
  have := monthLen_pos m
  omega

/-- A calendar date: a month index together with a 0-based day offset into
that month.  This is the canonical decomposition of a (day-resolution)
pandas timestamp. -/
def Date : Type := { p : ℤ × ℤ // 0 ≤ p.2 ∧ p.2 < monthLen p.1 }

instance : DecidableEq Date := Subtype.instDecidableEq

/-- The month index of a date. -/
def Date.month (d : Date) : ℤ := d.1.1

/-- The 0-based day-of-month of a date. -/
def Date.dayOfs (d : Date) : ℤ := d.1.2

/-- Day number (since 1970-01-01) of a date. -/
def toDay (d : Date) : ℤ := monthStart d.month + d.dayOfs

theorem toDay_month_lt (d e : Date) (h : d.month < e.month) :
    toDay d < toDay e := by
  have h1 : toDay d < monthStart (d.month + 1) := by
    unfold toDay
    have h2 := d.2.2
    rw [monthStart_succ]
    unfold Date.month Date.dayOfs at *
    omega
  have h3 : monthStart (d.month + 1) ≤ monthStart e.month :=
    monthStart_strictMono.le_iff_le.mpr (by omega)
  have h4 : monthStart e.month ≤ toDay e := by
    unfold toDay
    have := e.2.1
    unfold Date.month Date.dayOfs at *
    omega
  omega

theorem toDay_inj (d e : Date) (h : toDay d = toDay e) : d = e := by
  rcases lt_trichotomy d.month e.month with hm | hm | hm
  · exact absurd h (ne_of_lt (toDay_month_lt d e hm))
  · have hd : d.dayOfs = e.dayOfs := by
      unfold toDay at h
      rw [hm] at h
      omega
    rcases d with ⟨⟨dm, dd⟩, hdp⟩
    rcases e with ⟨⟨em, ed⟩, hep⟩
    unfold Date.month at hm
    unfold Date.dayOfs at hd
    simp at hm hd
    subst hm
    subst hd
    rfl
  · exact absurd h.symm (ne_of_lt (toDay_month_lt e d hm))

/-! ## Preprocessor (services/data_loader.py lines 50-155)

A raw row is modelled after date parsing (lines 105-111): its first
component is the parsed date (`none` when `pd.to_datetime(..,
errors='coerce')` produced `NaT`, in which case line 114 drops the row) and
its second component the numeric value (currency cleanup already applied).
-/

/-- The resampling granularity of the pipeline. -/
inductive Gran where
  | daily
  | weekly
  | monthly
deriving DecidableEq

/-- Executable minimum on `ℤ`. -/
def zmin (a b : ℤ) : ℤ := if a ≤ b then a else b

/-- Executable maximum on `ℤ`. -/
def zmax (a b : ℤ) : ℤ := if a ≤ b then b else a

/-- data_loader.py lines 129-134: the resampling bucket of a date, as a
consecutive integer index per granularity: daily (`'D'`) — the day number;
weekly (`'W'`, Sunday-anchored, right-closed/right-labelled) — the index of
the Sunday on or after the day (Sundays are the days `≡ 3 (mod 7)`);
monthly (`'MS'`) — the month index. -/
def bucketIdx : Gran → Date → ℤ
  | .daily, d => toDay d
  | .weekly, d => (toDay d + 3) / 7
  | .monthly, d => d.month

/-- The output timestamp labelling bucket `i`: the day itself, the bin's
Sunday (right label of `'W'`), or the month start (left label of `'MS'`). -/
def labelOfIdx : Gran → ℤ → ℤ
  | .daily, i => i
  | .weekly, i => 7 * i + 3
  | .monthly, i => monthStart i

/-- Line 114: rows with unparseable dates are dropped. -/
def validRows (rows : List (Option Date × ℚ)) : List (Date × ℚ) :=
  rows.filterMap (fun r => r.1.map (fun d => (d, r.2)))

/-- The bucket indices of the valid rows. -/
def bucketIdxs (g : Gran) (valid : List (Date × ℚ)) : List ℤ :=
  valid.map (fun r => bucketIdx g r.1)

/-- Smallest observed bucket index. -/
def loIdx (g : Gran) (valid : List (Date × ℚ)) : ℤ :=
  (bucketIdxs g valid).foldl zmin ((bucketIdxs g valid).headD 0)

/-- Largest observed bucket index. -/
def hiIdx (g : Gran) (valid : List (Date × ℚ)) : ℤ :=
  (bucketIdxs g valid).foldl zmax ((bucketIdxs g valid).headD 0)

/-- Sum of the raw values falling in bucket `i` (the groupby-sum of line 121
followed by the resample-sum of lines 129-134 adds up to exactly this). -/
def bucketSum (g : Gran) (valid : List (Date × ℚ)) (i : ℤ) : ℚ :=
  ((valid.filter (fun r => decide (bucketIdx g r.1 = i))).map (fun r => r.2)).sum

/-- data_loader.py lines 105-142: group duplicate timestamps (sum), sort
chronologically, resample onto the strict granularity grid covering the
observed range, summing within buckets, empty buckets yielding 0 (the
`fillna(0)` of line 142 is then a no-op).  One entry per bucket index from
the smallest to the largest observed. -/
def preprocessSeries (rows : List (Option Date × ℚ)) (g : Gran) : List (ℤ × ℚ) :=
  if (validRows rows).isEmpty then []
  else
    (List.range
        (hiIdx g (validRows rows) - loIdx g (validRows rows) + 1).toNat).map
      (fun k : ℕ => (labelOfIdx g (loIdx g (validRows rows) + (k : ℤ)),
        bucketSum g (validRows rows) (loIdx g (validRows rows) + (k : ℤ))))

/-- Line 145: `int(len(series) * 0.8)`.  (`0.8` as a binary double is
`0.8 + 4.44e-17`; the excess can never carry `n * 0.8` past the next
integer for any attainable length, so the floor equals `4n / 5`.) -/
def splitIdx (n : ℕ) : ℕ := 4 * n / 5

/-- Lines 144-151: the 80/20 chronological split returned by
`preprocess_data`. -/
def preprocess_data (rows : List (Option Date × ℚ)) (g : Gran) :
    List (ℤ × ℚ) × List (ℤ × ℚ) :=
  ((preprocessSeries rows g).take (splitIdx (preprocessSeries rows g).length),
   (preprocessSeries rows g).drop (splitIdx (preprocessSeries rows g).length))

/-- One granularity step between consecutive output timestamps: next day,
next Sunday, or start of the next month. -/
def stepOk : Gran → ℤ → ℤ → Prop
  | .daily => fun a b => b = a + 1
  | .weekly => fun a b => b = a + 7
  | .monthly => fun a b => ∃ M, a = monthStart M ∧ b = monthStart (M + 1)

theorem labelOfIdx_step (g : Gran) (i : ℤ) :
    stepOk g (labelOfIdx g i) (labelOfIdx g (i + 1)) := by
  cases g
  · rfl
  · show 7 * (i + 1) + 3 = 7 * i + 3 + 7
    ring
  · exact ⟨i, rfl, rfl⟩

theorem stepOk_lt (g : Gran) (a b : ℤ) (h : stepOk g a b) : a < b := by
  cases g
  · rw [h]
    omega
  · rw [h]
    omega
  · obtain ⟨M, rfl, rfl⟩ := h
    exact monthStart_strictMono (lt_add_one M)

theorem foldl_zmin_le (t : List ℤ) (s : ℤ) :
    t.foldl zmin s ≤ s ∧ ∀ x ∈ t, t.foldl zmin s ≤ x := by
  induction t generalizing s with
  | nil => simp
  | cons b t ih =>
    constructor
    · show t.foldl zmin (zmin s b) ≤ s
      refine le_trans (ih (zmin s b)).1 ?_
      unfold zmin
      split <;> omega
    · intro x hx
      show t.foldl zmin (zmin s b) ≤ x
      rcases List.mem_cons.mp hx with h | h
      · rw [h]
        refine le_trans (ih (zmin s b)).1 ?_
        unfold zmin
        split <;> omega
      · exact (ih (zmin s b)).2 x h

theorem le_foldl_zmax (t : List ℤ) (s : ℤ) :
    s ≤ t.foldl zmax s ∧ ∀ x ∈ t, x ≤ t.foldl zmax s := by
  induction t generalizing s with
  | nil => simp
  | cons b t ih =>
    constructor
    · show s ≤ t.foldl zmax (zmax s b)
      refine le_trans ?_ (ih (zmax s b)).1
      unfold zmax
      split <;> omega
    · intro x hx
      show x ≤ t.foldl zmax (zmax s b)
      rcases List.mem_cons.mp hx with h | h
      · rw [h]
        refine le_trans ?_ (ih (zmax s b)).1
        unfold zmax
        split <;> omega
      · exact (ih (zmax s b)).2 x h

theorem bucket_bounds (g : Gran) (valid : List (Date × ℚ)) (r : Date × ℚ)
    (hr : r ∈ valid) :
    loIdx g valid ≤ bucketIdx g r.1 ∧ bucketIdx g r.1 ≤ hiIdx g valid := by
  have hmem : bucketIdx g r.1 ∈ bucketIdxs g valid :=
    List.mem_map_of_mem _ hr
  rcases hval : bucketIdxs g valid with _ | ⟨a, t⟩
  · rw [hval] at hmem
    cases hmem
  · rw [hval] at hmem
    unfold loIdx hiIdx
    rw [hval]
    have hlo : (a :: t).foldl zmin ((a :: t).headD 0) = t.foldl zmin a := by
      show t.foldl zmin (zmin a a) = t.foldl zmin a
      have : zmin a a = a := by
        unfold zmin
        split <;> omega
      rw [this]
    have hhi : (a :: t).foldl zmax ((a :: t).headD 0) = t.foldl zmax a := by
      show t.foldl zmax (zmax a a) = t.foldl zmax a
      have : zmax a a = a := by
        unfold zmax
        split <;> omega
      rw [this]
    rw [hlo, hhi]
    rcases List.mem_cons.mp hmem with h | h
    · rw [h]
      exact ⟨(foldl_zmin_le t a).1, (le_foldl_zmax t a).1⟩
    · exact ⟨(foldl_zmin_le t a).2 _ h, (le_foldl_zmax t a).2 _ h⟩

theorem chain'_range_map {α : Type} (R : α → α → Prop) (f : ℤ → α) (lo : ℤ)
    (n : ℕ) (h : ∀ i : ℤ, R (f i) (f (i + 1))) :
    List.Chain' R ((List.range n).map (fun k : ℕ => f (lo + (k : ℤ)))) := by
  rw [List.chain'_map]
  cases n with
  | zero => simp
  | succ n =>
    rw [List.chain'_range_succ]
    intro m hm
    have := h (lo + m)
    have hcast : lo + (↑(m + 1) : ℤ) = lo + m + 1 := by push_cast; ring
    rw [hcast]
    exact this

theorem preprocessSeries_map_fst (rows : List (Option Date × ℚ)) (g : Gran) :
    (preprocessSeries rows g).map Prod.fst =
    (List.range
        (hiIdx g (validRows rows) - loIdx g (validRows rows) + 1).toNat).map
      (fun k : ℕ => labelOfIdx g (loIdx g (validRows rows) + (k : ℤ))) ∨
    preprocessSeries rows g = [] := by
  unfold preprocessSeries
  split
  · exact Or.inr rfl
  · left
    rw [List.map_map]
    rfl

/-- C5, theorem (amended): for every raw record set and granularity, the
preprocessed series has timestamps advancing by exactly one granularity
unit (next day / next Sunday / next month start), strictly increasing, with
no duplicates; every grid timestamp between the smallest and largest
observed bucket is present; the value at each present grid timestamp is the
sum of the raw values in its bucket, and a grid timestamp whose bucket
contains no raw row carries value zero. -/
theorem preprocess_grid_invariants (rows : List (Option Date × ℚ)) (g : Gran) :
    List.Chain' (stepOk g) ((preprocessSeries rows g).map Prod.fst) ∧
    List.Chain' (· < ·) ((preprocessSeries rows g).map Prod.fst) ∧
    ((preprocessSeries rows g).map Prod.fst).Nodup ∧
    (∀ r ∈ validRows rows,
      (labelOfIdx g (bucketIdx g r.1),
        bucketSum g (validRows rows) (bucketIdx g r.1)) ∈
        preprocessSeries rows g) ∧
    (∀ i : ℤ, loIdx g (validRows rows) ≤ i → i ≤ hiIdx g (validRows rows) →
      validRows rows ≠ [] →
      (labelOfIdx g i, bucketSum g (validRows rows) i) ∈
        preprocessSeries rows g) ∧
    (∀ i : ℤ, (∀ r ∈ validRows rows, bucketIdx g r.1 ≠ i) →
      bucketSum g (validRows rows) i = 0) := by
  have hchain : List.Chain' (stepOk g) ((preprocessSeries rows g).map Prod.fst) := by
    rcases preprocessSeries_map_fst rows g with h | h
    · rw [h]
      exact chain'_range_map _ _ _ _ (labelOfIdx_step g)
    · rw [h]
      exact List.chain'_nil
  have hlt : List.Chain' (· < ·) ((preprocessSeries rows g).map Prod.fst) :=
    List.Chain'.imp (fun a b => stepOk_lt g a b) hchain
  have hmemAt : ∀ i : ℤ, loIdx g (validRows rows) ≤ i →
      i ≤ hiIdx g (validRows rows) → validRows rows ≠ [] →
      (labelOfIdx g i, bucketSum g (validRows rows) i) ∈
        preprocessSeries rows g := by
    intro i hlo hhi hne
    unfold preprocessSeries
    rw [if_neg (by simpa [List.isEmpty_iff] using hne)]
    rw [List.mem_map]
    refine ⟨(i - loIdx g (validRows rows)).toNat, ?_, ?_⟩
    · rw [List.mem_range]
      omega
    · have hk : loIdx g (validRows rows) +
          ((i - loIdx g (validRows rows)).toNat : ℤ) = i := by omega
      rw [hk]
  refine ⟨hchain, hlt, ?_, ?_, hmemAt, ?_⟩
  · have hpw := (List.chain'_iff_pairwise).mp hlt
    exact hpw.imp (fun h => ne_of_lt h)
  · intro r hr
    have hb := bucket_bounds g (validRows rows) r hr
    exact hmemAt _ hb.1 hb.2 (by rintro h; rw [h] at hr; cases hr)
  · intro i hno
    unfold bucketSum
    have hfil : (validRows rows).filter
        (fun r => decide (bucketIdx g r.1 = i)) = [] := by
      rw [List.filter_eq_nil_iff]
      intro r hr
      simpa using hno r hr
    rw [hfil]
    rfl

/-- 1970-01-01 (a Thursday, day 0). -/
def jan1st1970 : Date := ⟨(12 * 1970, 0), by decide⟩

/-- 1970-01-03 (day 2). -/
def jan3rd1970 : Date := ⟨(12 * 1970, 2), by decide⟩

/-- 1970-01-05 (a Monday, day 4). -/
def jan5th1970 : Date := ⟨(12 * 1970, 4), by decide⟩

/-- C5, witness for `preprocess_grid_invariants`: for raw rows on
1970-01-01 and 1970-01-03 at daily granularity, the gap day 1970-01-02
(bucket 1) is present in the preprocessed series and carries value zero. -/
theorem preprocess_grid_invariants_witness :
    (labelOfIdx .daily 1,
      bucketSum .daily (validRows
        [(some jan1st1970, (5:ℚ)), (some jan3rd1970, (7:ℚ))]) 1) ∈
      preprocessSeries [(some jan1st1970, (5:ℚ)), (some jan3rd1970, (7:ℚ))]
        .daily ∧
    bucketSum .daily (validRows
      [(some jan1st1970, (5:ℚ)), (some jan3rd1970, (7:ℚ))]) 1 = 0 :=
  ⟨(preprocess_grid_invariants
        [(some jan1st1970, (5:ℚ)), (some jan3rd1970, (7:ℚ))] .daily).2.2.2.2.1
      1 (by decide) (by decide) (by decide),
    (preprocess_grid_invariants
        [(some jan1st1970, (5:ℚ)), (some jan3rd1970, (7:ℚ))] .daily).2.2.2.2.2
      1 (by decide)⟩

/-- C5, counterexample to the claim as stated: a single raw row on Monday
1970-01-05 (day 4) resampled weekly produces the series
`[(day 10, 5)]` — labelled by Sunday 1970-01-11, a timestamp absent from
the raw data, yet carrying value 5, not zero.  Only granularity-grid
timestamps whose bucket is empty carry zero. -/
theorem preprocess_weekly_counterexample :
    preprocessSeries [(some jan5th1970, (5:ℚ))] .weekly = [(10, 5)] ∧
    toDay jan5th1970 = 4 ∧ ((4 : ℤ) ≠ 10) ∧ ((5 : ℚ) ≠ 0) := by
  refine ⟨?_, by decide, by decide, by norm_num⟩
  have h5 : bucketSum Gran.weekly (validRows [(some jan5th1970, (5:ℚ))]) 1
      = 5 := by
    unfold bucketSum
    have hfil : (validRows [(some jan5th1970, (5:ℚ))]).filter
        (fun r => decide (bucketIdx Gran.weekly r.1 = 1)) =
        [(jan5th1970, (5:ℚ))] := by decide
    rw [hfil]
    simp
  have h3 : loIdx Gran.weekly (validRows [(some jan5th1970, (5:ℚ))]) = 1 := by
    decide
  have h4 : hiIdx Gran.weekly (validRows [(some jan5th1970, (5:ℚ))]) = 1 := by
    decide
  unfold preprocessSeries
  rw [if_neg (by decide), h3, h4]
  have hr1 : List.range (((1:ℤ) - 1 + 1).toNat) = [0] := rfl
  rw [hr1]
  norm_num [labelOfIdx, h5]

/-! ## Orchestrator formatting step (forecast_service.py lines 153-169) -/

/-- The anchor sequence of the `pd.date_range` frequencies used at lines
155-160: `'D'` — every day; `'W'` (Sunday-anchored) — the Sundays
`7j + 3`; `'M'` (month END) — the last day of month `j`,
`monthStart (j+1) - 1`.  Note `'M'` anchors on month ends although the
preprocessing grid (`'MS'`, line 134) is month starts. -/
def anchorTs : Gran → ℤ → ℤ
  | .daily, j => j
  | .weekly, j => 7 * j + 3
  | .monthly, j => monthStart (j + 1) - 1

/-- `pd.date_range(start, periods, freq)` starts at the first anchor on or
after `start`; for `start = labelOfIdx g i` (a timestamp of the
preprocessing grid) that first anchor is anchor `i`: the label is at most
anchor `i`, and anchor `i - 1` is strictly before it. -/
theorem anchor_rollforward (g : Gran) (i : ℤ) :
    labelOfIdx g i ≤ anchorTs g i ∧ anchorTs g (i - 1) < labelOfIdx g i := by
  cases g
  · exact ⟨le_refl _, by show i - 1 < i; omega⟩
  · refine ⟨le_refl _, ?_⟩
    show 7 * (i - 1) + 3 < 7 * i + 3
    omega
  · constructor
    · show monthStart i ≤ monthStart (i + 1) - 1
      have h := monthStart_succ i
      have h28 := (monthLen_ge_28 i).1
      omega
    · show monthStart (i - 1 + 1) - 1 < monthStart i
      have : i - 1 + 1 = i := by omega
      rw [this]
      omega

/-- forecast_service.py lines 153-160:
`pd.date_range(last_date, periods=horizon+1, freq)[1:]` where `last_date =
train_series.index[-1] = labelOfIdx g lastIdx` lies on the preprocessing
grid.  By `anchor_rollforward` the range's first element is anchor
`lastIdx`, and `[1:]` drops it, so the future dates are the anchors
`lastIdx + 1 + k` for `k < horizon`. -/
def futureDates (g : Gran) (lastIdx : ℤ) (horizon : ℕ) : List ℤ :=
  (List.range horizon).map (fun k : ℕ => anchorTs g (lastIdx + 1 + (k : ℤ)))

/-- Lines 162-169: one `{'date', 'value'}` record per
`zip(future_dates, predictions)` element. -/
def formatPredictions (g : Gran) (lastIdx : ℤ) (horizon : ℕ)
    (preds : List ℚ) : List (ℤ × ℚ) :=
  (futureDates g lastIdx horizon).zip preds

/-- C6, theorem (amended): with exactly `horizon` predictions there are
exactly `horizon` dated predictions (one timestamp per value).  For daily
and weekly granularity the forward timestamps start immediately after the
last training timestamp and advance by exactly one granularity unit on the
same grid as the preprocessed series.  For monthly granularity, however,
the timestamps are month ENDS (`'M'`), namely the last days of the months
`lastIdx + 1 + k`; the first of them is never the month-start grid
successor of the last training timestamp. -/
theorem format_future_dates_spec (g : Gran) (lastIdx : ℤ) (horizon : ℕ)
    (preds : List ℚ) (hp : preds.length = horizon) :
    (formatPredictions g lastIdx horizon preds).length = horizon ∧
    ((g = .daily ∨ g = .weekly) →
      List.Chain' (stepOk g)
        (labelOfIdx g lastIdx :: futureDates g lastIdx horizon)) ∧
    (futureDates .monthly lastIdx horizon =
      (List.range horizon).map
        (fun k : ℕ => monthStart (lastIdx + 2 + (k : ℤ)) - 1)) ∧
    (monthStart (lastIdx + 2) - 1 ≠ monthStart (lastIdx + 1)) := by
  refine ⟨?_, ?_, ?_, ?_⟩
  · unfold formatPredictions futureDates
    rw [List.length_zip, List.length_map, List.length_range, hp]
    omega
  · rintro (rfl | rfl)
    · refine List.chain'_cons'.mpr ⟨?_, ?_⟩
      · intro y hy
        cases horizon with
        | zero => simp [futureDates] at hy
        | succ n =>
          unfold futureDates at hy
          rw [List.range_succ_eq_map, List.map_cons, List.head?_cons] at hy
          simp only [Option.mem_def, Option.some.injEq] at hy
          subst hy
          show anchorTs Gran.daily (lastIdx + 1 + ((0:ℕ) : ℤ)) =
            labelOfIdx Gran.daily lastIdx + 1
          show lastIdx + 1 + ((0:ℕ) : ℤ) = lastIdx + 1
          omega
      · unfold futureDates
        exact chain'_range_map (stepOk .daily) (anchorTs .daily)
          (lastIdx + 1) horizon (fun i => rfl)
    · refine List.chain'_cons'.mpr ⟨?_, ?_⟩
      · intro y hy
        cases horizon with
        | zero => simp [futureDates] at hy
        | succ n =>
          unfold futureDates at hy
          rw [List.range_succ_eq_map, List.map_cons, List.head?_cons] at hy
          simp only [Option.mem_def, Option.some.injEq] at hy
          subst hy
          show anchorTs Gran.weekly (lastIdx + 1 + ((0:ℕ) : ℤ)) =
            labelOfIdx Gran.weekly lastIdx + 7
          show 7 * (lastIdx + 1 + ((0:ℕ) : ℤ)) + 3 = 7 * lastIdx + 3 + 7
          push_cast
          ring
      · unfold futureDates
        exact chain'_range_map (stepOk .weekly) (anchorTs .weekly)
          (lastIdx + 1) horizon (fun i => by
            show 7 * (i + 1) + 3 = 7 * i + 3 + 7
            ring)
  · unfold futureDates
    refine List.map_congr_left ?_
    intro k hk
    show monthStart (lastIdx + 1 + (k : ℤ) + 1) - 1 =
      monthStart (lastIdx + 2 + (k : ℤ)) - 1
    have h : lastIdx + 1 + (k : ℤ) + 1 = lastIdx + 2 + (k : ℤ) := by ring
    rw [h]
  · have h := monthStart_succ (lastIdx + 1)
    have h28 := (monthLen_ge_28 (lastIdx + 1)).1
    have harg : lastIdx + 1 + 1 = lastIdx + 2 := by ring
    rw [harg] at h
    omega

/-- C6, witness for `format_future_dates_spec` at daily granularity,
`lastIdx = 0`, horizon 2: two dated predictions, timestamps `[1, 2]`. -/
theorem format_future_dates_spec_witness :
    (formatPredictions .daily 0 2 [(5:ℚ), 6]).length = 2 ∧
    List.Chain' (stepOk .daily) (labelOfIdx .daily 0 :: futureDates .daily 0 2) :=
  ⟨(format_future_dates_spec .daily 0 2 [(5:ℚ), 6] (by decide)).1,
    (format_future_dates_spec .daily 0 2 [(5:ℚ), 6] (by decide)).2.1
      (Or.inl rfl)⟩

/-- C6, counterexample to the claim as stated, at monthly granularity: with
the last training month May 2024 (month index `12 * 2024 + 4`, timestamp
2024-05-01 = day 19844), the first forward timestamp is day 19904
(2024-06-30, the END of June), not day 19875 (2024-06-01), which is the
last training timestamp advanced by one granularity unit on the
month-start grid of the preprocessed series. -/
theorem format_monthly_counterexample :
    futureDates .monthly (12 * 2024 + 4) 2 = [19904, 19935] ∧
    labelOfIdx .monthly (12 * 2024 + 4 + 1) = 19875 ∧
    ((19904 : ℤ) ≠ 19875) := by
  refine ⟨by decide, by decide, by decide⟩

/-! ## Pipeline validation (data_loader.py lines 157-167,
forecast_service.py lines 111-114) -/

/-- The user-facing input errors of the validation step: line 162
("Dataset is empty") and line 165 ("Dataset too small (minimum 10 rows
required)", the `InsufficientDataError` of the error taxonomy). -/
inductive PipeError where
  | emptyData
  | insufficientData
deriving DecidableEq

/-- data_loader.py lines 157-167, `validate_data`: it receives the RAW
dataframe (run_forecast calls it at line 112, before `preprocess_data`), so
the row count checked is the raw row count, before unparseable-date rows
are dropped. -/
def validate_data (nRaw : ℕ) : Except PipeError Unit :=
  if nRaw = 0 then .error .emptyData
  else if nRaw < 10 then .error .insufficientData
  else .ok ()

/-- forecast_service.py lines 111-114: load, validate, preprocess. -/
def pipelineValidatePreprocess (rows : List (Option Date × ℚ)) (g : Gran) :
    Except PipeError (List (ℤ × ℚ) × List (ℤ × ℚ)) :=
  match validate_data rows.length with
  | .error e => .error e
  | .ok _ => .ok (preprocess_data rows g)

/-- C2, theorem (amended): the pipeline fails with a validation error
exactly when the RAW dataset has fewer than 10 rows (`InsufficientDataError`
for 1-9 rows, the empty-dataset variant for 0); the number of rows that
survive cleaning is irrelevant, since validation runs before cleaning and
preprocessing itself never raises an insufficient-data error. -/
theorem validate_counts_raw_rows (rows : List (Option Date × ℚ)) (g : Gran) :
    ((∃ e, pipelineValidatePreprocess rows g = .error e) ↔ rows.length < 10) ∧
    (pipelineValidatePreprocess rows g = .error .insufficientData ↔
      (1 ≤ rows.length ∧ rows.length < 10)) ∧
    (pipelineValidatePreprocess rows g = .error .emptyData ↔
      rows.length = 0) := by
  unfold pipelineValidatePreprocess validate_data
  by_cases h0 : rows.length = 0
  · rw [if_pos h0]
    refine ⟨⟨fun _ => by omega, fun _ => ⟨.emptyData, rfl⟩⟩, ?_, ?_⟩
    · constructor
      · intro h
        cases h
      · intro h
        omega
    · exact ⟨fun _ => h0, fun _ => rfl⟩
  · rw [if_neg h0]
    by_cases h10 : rows.length < 10
    · rw [if_pos h10]
      refine ⟨⟨fun _ => h10, fun _ => ⟨.insufficientData, rfl⟩⟩, ?_, ?_⟩
      · exact ⟨fun _ => ⟨by omega, h10⟩, fun _ => rfl⟩
      · constructor
        · intro h
          cases h
        · intro h
          omega
    · rw [if_neg h10]
      refine ⟨⟨?_, fun h => absurd h h10⟩, ?_, ?_⟩
      · rintro ⟨e, he⟩
        cases he
      · constructor
        · intro h
          cases h
        · intro h
          omega
      · constructor
        · intro h
          cases h
        · intro h
          omega

/-- C2, witness for `validate_counts_raw_rows`: 5 raw rows (all with valid
dates) fail with the insufficient-data error. -/
theorem validate_counts_raw_rows_witness :
    pipelineValidatePreprocess
      [(some jan1st1970, (1:ℚ)), (some jan1st1970, 2), (some jan1st1970, 3),
       (some jan1st1970, 4), (some jan1st1970, 5)] .daily =
      .error .insufficientData :=
  (validate_counts_raw_rows
    [(some jan1st1970, (1:ℚ)), (some jan1st1970, 2), (some jan1st1970, 3),
     (some jan1st1970, 4), (some jan1st1970, 5)] .daily).2.1.mpr
    ⟨by decide, by decide⟩

/-- C2, counterexample to the claim as stated: a dataset with 10 raw rows
of which only 1 has a parseable date (fewer than 10 survive cleaning) does
NOT fail with `InsufficientDataError` — validation counts raw rows before
cleaning, so the pipeline proceeds. -/
theorem validate_counts_raw_rows_counterexample :
    ([((none : Option Date), (1:ℚ)), (none, 1), (none, 1), (none, 1),
      (none, 1), (none, 1), (none, 1), (none, 1), (none, 1),
      (some jan1st1970, 1)] : List (Option Date × ℚ)).length = 10 ∧
    (validRows
      [((none : Option Date), (1:ℚ)), (none, 1), (none, 1), (none, 1),
       (none, 1), (none, 1), (none, 1), (none, 1), (none, 1),
       (some jan1st1970, 1)]).length = 1 ∧
    ((1 : ℕ) < 10) ∧
    (pipelineValidatePreprocess
      [((none : Option Date), (1:ℚ)), (none, 1), (none, 1), (none, 1),
       (none, 1), (none, 1), (none, 1), (none, 1), (none, 1),
       (some jan1st1970, 1)] .daily).isOk = true := by
  exact ⟨rfl, rfl, by decide, rfl⟩

/-! ## Cache snapshot mutation (services/cache.py lines 57-68,
data_loader.py lines 21-44 and 98-117) -/

/-- One cell of a raw dataframe column: a string, a number, a parsed
timestamp, or NaT. -/
inductive Cell where
  | str (s : String)
  | num (q : ℚ)
  | ts (t : ℤ)
  | nat
deriving DecidableEq

/-- The value column: numeric dtype, or object dtype (cells handled through
`astype(str)` at line 102, hence modelled as strings). -/
inductive ValCol where
  | numericCol (vs : List ℚ)
  | objectCol (ss : List String)
deriving DecidableEq

/-- A raw parsed CSV table as stored in the cache: the detected date
column, the detected value column, and all remaining columns (never
touched by preprocessing). -/
structure RawTable where
  dateCol : List Cell
  valCol : ValCol
  others : List (String × List Cell)
deriving DecidableEq

/-- `pd.to_datetime(cell, errors='coerce')` on one cell (line 109):
timestamps and NaT are fixed points; strings parse through the `parseDate`
oracle; numbers are interpreted as epoch offsets through the `numDate`
oracle; failures coerce to NaT. -/
def parseCell (parseDate : String → Option ℤ) (numDate : ℚ → Option ℤ) :
    Cell → Cell
  | .str s => (parseDate s).elim Cell.nat Cell.ts
  | .num q => (numDate q).elim Cell.nat Cell.ts
  | .ts t => .ts t
  | .nat => .nat

/-- Line 102: strip `$` and `,` and surrounding whitespace. -/
def stripCurrency (s : String) : String :=
  ((s.toList.filter
    (fun c => decide (c ≠ '$') && decide (c ≠ ','))).asString).trim

/-- Lines 99-103: an object-dtype value column is cleaned and coerced to
numbers (`pd.to_numeric(..., errors='coerce')` through the `parseNum`
oracle, with NaN filled by 0), becoming numeric dtype; a numeric column is
untouched. -/
def cleanValCol (parseNum : String → Option ℚ) : ValCol → ValCol
  | .numericCol vs => .numericCol vs
  | .objectCol ss =>
      .numericCol (ss.map (fun s => (parseNum (stripCurrency s)).getD 0))

/-- The in-place mutation `preprocess_data` performs on the dataframe
object obtained from `load_data_from_url`: line 102-103 reassigns the value
column and line 109 reassigns the date column of THAT object (the dropna of
line 114 builds a new frame, so no rows are removed from it).  On a cache
hit the object IS the stored snapshot (`cache.get` line 49 /
`load_data_from_url` line 26 return the stored reference, and `cache.set`
line 67 stores the reference), so after preprocessing the cache holds this
value. -/
def preprocessMutation (pd : String → Option ℤ) (nd : ℚ → Option ℤ)
    (pn : String → Option ℚ) (t : RawTable) : RawTable :=
  { dateCol := t.dateCol.map (parseCell pd nd)
    valCol := cleanValCol pn t.valCol
    others := t.others }

/-- The cache slot for a given URL after `n` preprocessing runs over it
(request `n` observes slot state `n - 1`). -/
def cacheSlotAfter (pd : String → Option ℤ) (nd : ℚ → Option ℤ)
    (pn : String → Option ℚ) (t0 : RawTable) : ℕ → RawTable
  | 0 => t0
  | n + 1 => preprocessMutation pd nd pn (cacheSlotAfter pd nd pn t0 n)

theorem parseCell_idem (pd : String → Option ℤ) (nd : ℚ → Option ℤ)
    (c : Cell) : parseCell pd nd (parseCell pd nd c) = parseCell pd nd c := by
  cases c with
  | str s =>
    show parseCell pd nd ((pd s).elim Cell.nat Cell.ts) =
      (pd s).elim Cell.nat Cell.ts
    cases h : pd s <;> rfl
  | num q =>
    show parseCell pd nd ((nd q).elim Cell.nat Cell.ts) =
      (nd q).elim Cell.nat Cell.ts
    cases h : nd q <;> rfl
  | ts t => rfl
  | nat => rfl

theorem preprocessMutation_idem (pd : String → Option ℤ)
    (nd : ℚ → Option ℤ) (pn : String → Option ℚ) (t : RawTable) :
    preprocessMutation pd nd pn (preprocessMutation pd nd pn t) =
      preprocessMutation pd nd pn t := by
  unfold preprocessMutation
  congr 1
  · rw [List.map_map]
    refine List.map_congr_left ?_
    intro c _
    exact parseCell_idem pd nd c
  · cases t.valCol <;> rfl

/-- C7, theorem (amended): the raw snapshot stored in the cache is mutated
in place by preprocessing (dates parsed, currency-formatted values
cleaned), but the mutation is idempotent, so the snapshot is stable from
the first preprocessing run onward: for every `n ≥ 1`, the `(n+1)`-th run
leaves the stored table exactly as the `n`-th left it, and two successive
requests after the first observe the same raw snapshot. -/
theorem cache_snapshot_stable (pd : String → Option ℤ) (nd : ℚ → Option ℤ)
    (pn : String → Option ℚ) (t0 : RawTable) (n : ℕ) (hn : 1 ≤ n) :
    cacheSlotAfter pd nd pn t0 (n + 1) = cacheSlotAfter pd nd pn t0 n := by
  obtain ⟨m, rfl⟩ : ∃ m, n = m + 1 := ⟨n - 1, by omega⟩
  show preprocessMutation pd nd pn
    (preprocessMutation pd nd pn (cacheSlotAfter pd nd pn t0 m)) = _
  exact preprocessMutation_idem pd nd pn _

/-- C7, witness for `cache_snapshot_stable` at a concrete table and
concrete parsing oracles. -/
theorem cache_snapshot_stable_witness :
    cacheSlotAfter (fun s => if s = "2024-01-01" then some 19723 else none)
      (fun _ => none) (fun _ => none)
      ⟨[Cell.str "2024-01-01"], ValCol.numericCol [5], []⟩ 2 =
    cacheSlotAfter (fun s => if s = "2024-01-01" then some 19723 else none)
      (fun _ => none) (fun _ => none)
      ⟨[Cell.str "2024-01-01"], ValCol.numericCol [5], []⟩ 1 :=
  cache_snapshot_stable _ _ _ _ 1 (by decide)

/-- C7, counterexample to the claim as stated: a cached table whose date
column holds the string "2024-01-01" is NOT left unchanged by a
preprocessing run — the first run replaces the stored date cells with
parsed timestamps, so the first and second requests observe different raw
snapshots. -/
theorem cache_snapshot_mutated_counterexample :
    cacheSlotAfter (fun s => if s = "2024-01-01" then some 19723 else none)
      (fun _ => none) (fun _ => none)
      ⟨[Cell.str "2024-01-01"], ValCol.numericCol [5], []⟩ 1 ≠
    ⟨[Cell.str "2024-01-01"], ValCol.numericCol [5], []⟩ := by
  decide

end SalesForecast
